import Mathlib

/-!
# Verification of mpc-lib-go: Pedersen parameters, Paillier key codec,
# transcript hash, and presign round 5

Shallow embedding of the repository sources:
* `src/core/pedersen/pedersen.go` (Pedersen parameters, PaillierKeyManager,
  transcript hash),
* `src/unnamed/part_000` (PaillierKey byte codec),
* `src/protocols/cmp/presign/presign5.go` (round 5 state machine).

Go byte slices are `List Nat` (each entry < 256 where produced by the code),
Go big naturals (saferith.Nat) are `Nat`, signed big integers (saferith.Int)
are `Int`, pointers that may be nil are `Option`, and Go slicing
`data[a:b]` is bounds-checked (`goSlice`), returning `none` where Go would
panic with a slice-out-of-range error.
-/

namespace Mpc

/-- Go `binary.LittleEndian.PutUint16(b, uint16(v))`: the cast truncates
mod 2^16 and the two bytes are little endian. -/
def u16le (v : Nat) : List Nat := [v % 256, v / 256 % 256]

/-- Go `binary.LittleEndian.Uint16` on a 2-byte slice: little-endian decode. -/
def leU16 (l : List Nat) : Nat := l.foldr (fun b acc => b + 256 * acc) 0

/-- Go `binary.BigEndian.PutUint64(b, uint64(v))`: eight big-endian bytes of
`v % 2^64`. -/
def u64be (v : Nat) : List Nat :=
  [v / 2 ^ 56 % 256, v / 2 ^ 48 % 256, v / 2 ^ 40 % 256, v / 2 ^ 32 % 256,
   v / 2 ^ 24 % 256, v / 2 ^ 16 % 256, v / 2 ^ 8 % 256, v % 256]

/-- Go slicing `data[a:b]`: defined when `a ≤ b ≤ len(data)`, otherwise the
program panics (modelled as `none`). The model takes capacity = length, which
is the case for byte slices returned by the keystore and for freshly built
buffers read back. -/
def goSlice (data : List Nat) (a b : Nat) : Option (List Nat) :=
  if a ≤ b ∧ b ≤ data.length then some ((data.drop a).take (b - a)) else none

/-- Modelled from the spec: `saferith.Nat.MarshalBinary` produces the
big-endian byte encoding of the natural (`fill_bytes` §4.1; minimal width).
Structural recursion on a fuel argument so that the kernel can evaluate it. -/
def natBytesAux : Nat → Nat → List Nat
  | 0, _ => []
  | fuel + 1, n => if n = 0 then [] else natBytesAux fuel (n / 256) ++ [n % 256]

/-- Big-endian byte encoding of a natural (empty for 0). -/
def natMarshal (n : Nat) : List Nat := natBytesAux n n

/-- Modelled from the spec: `saferith.Nat.UnmarshalBinary` interprets the
bytes as a big-endian natural and never fails. -/
def natUnmarshal (l : List Nat) : Nat := l.foldl (fun acc b => acc * 256 + b) 0

theorem natUnmarshal_append (l₁ l₂ : List Nat) :
    natUnmarshal (l₁ ++ l₂) =
      l₂.foldl (fun acc b => acc * 256 + b) (natUnmarshal l₁) := by
  simp [natUnmarshal, List.foldl_append]

theorem natBytesAux_eval (fuel n : Nat) (h : n ≤ fuel) :
    natUnmarshal (natBytesAux fuel n) = n := by
  induction fuel generalizing n with
  | zero => interval_cases n; simp [natBytesAux, natUnmarshal]
  | succ f ih =>
    by_cases hn : n = 0
    · simp [natBytesAux, hn, natUnmarshal]
    · have hdiv : n / 256 ≤ f := by
        have : n / 256 < n := Nat.div_lt_self (Nat.pos_of_ne_zero hn) (by omega)
        omega
      rw [natBytesAux]
      simp only [hn, if_false]
      rw [natUnmarshal_append, ih _ hdiv]
      simp [Nat.div_add_mod]
      omega

/-- Decoding the big-endian encoding of a natural recovers it. -/
theorem natUnmarshal_natMarshal (n : Nat) : natUnmarshal (natMarshal n) = n :=
  natBytesAux_eval n n le_rfl

/-! ## Pedersen parameters (`src/core/pedersen/pedersen.go`) -/

namespace Pedersen

/-- The closed error set of the pedersen package (`Error` constants). -/
inductive Err where
  | nilFields
  | sEqualT
  | notValidModN
  deriving DecidableEq, Repr

/-- Modelled from the spec: `arith.IsValidNatModN(n, a)` (the arith package is
not under src/): `a ∈ [1, N−1]` AND `gcd(a, N) = 1` (§4.1
`is_in_unit_group`). -/
def isValidNatModN (n a : Nat) : Bool :=
  decide (1 ≤ a) && decide (a ≤ n - 1) && decide (Nat.gcd a n = 1)

/-- `ValidateParameters(n, s, t)` from pedersen.go: nil check, unit-group
check on s and t, then the s = t check, in that order. Pointers are
`Option`. -/
def validateParameters (n s t : Option Nat) : Option Err :=
  match n, s, t with
  | some N, some S, some T =>
    if !(isValidNatModN N S && isValidNatModN N T) then some .notValidModN
    else if S = T then some .sEqualT
    else none
  | _, _, _ => some .nilFields

/-- Pedersen `Parameters`: the triple (n, s, t) of pedersen.go. The
`arith.Modulus` wrapper of n is abstracted to the natural it denotes (its
CRT acceleration data is derived from N and carries no information). -/
structure Params where
  n : Nat
  s : Nat
  t : Nat
  deriving DecidableEq, Repr

/-- Constructed parameters are assumed validated (`New` assumes
`ValidateParameters(n, s, t)` returns nil). -/
def Params.valid (p : Params) : Prop :=
  validateParameters (some p.n) (some p.s) (some p.t) = none

instance (p : Params) : Decidable p.valid := by
  unfold Params.valid; infer_instance

/-- Modelled from the spec: `arith.Modulus.MarshalBinary` encodes the modulus
as the big-endian bytes of N. -/
def modMarshal (n : Nat) : List Nat := natMarshal n

/-- Modelled from the spec: `arith.Modulus.UnmarshalBinary` decodes big-endian
bytes into a modulus; a modulus must be a nonzero natural. -/
def modUnmarshal (l : List Nat) : Except Unit Nat :=
  if natUnmarshal l = 0 then .error () else .ok (natUnmarshal l)

/-- `MarshalBiinary` from pedersen.go: a little-endian u16 length prefix
before each of the N, s and t encodings, concatenated in that order. -/
def marshalBiinary (p : Params) : List Nat :=
  u16le (modMarshal p.n).length ++ modMarshal p.n ++
    u16le (natMarshal p.s).length ++ natMarshal p.s ++
      u16le (natMarshal p.t).length ++ natMarshal p.t

/-- Failures of `UnmarshalBiinary`: a Go slice out of range (panic) or a
component decode error. -/
inductive UErr where
  | outOfRange
  | decodeFail
  deriving DecidableEq, Repr

/-- `UnmarshalBiinary` from pedersen.go: reads the six slices at the offsets
computed in the source, then decodes N, s, t. -/
def unmarshalBiinary (data : List Nat) : Except UErr Params :=
  match goSlice data 0 2 with
  | none => .error .outOfRange
  | some nlb =>
    let nl := leU16 nlb
    match goSlice data 2 (2 + nl) with
    | none => .error .outOfRange
    | some nb =>
      match goSlice data (2 + nl) (2 + nl + 2) with
      | none => .error .outOfRange
      | some slb =>
        let sl := leU16 slb
        match goSlice data (2 + nl + 2) (2 + nl + 2 + sl) with
        | none => .error .outOfRange
        | some sb =>
          match goSlice data (2 + nl + 2 + sl) (2 + nl + 2 + sl + 2) with
          | none => .error .outOfRange
          | some tlb =>
            let tl := leU16 tlb
            match goSlice data (2 + nl + 2 + sl + 2)
                (2 + nl + 2 + sl + 2 + tl) with
            | none => .error .outOfRange
            | some tb =>
              match modUnmarshal nb with
              | .error _ => .error .decodeFail
              | .ok n => .ok { n := n, s := natUnmarshal sb, t := natUnmarshal tb }

/-- Modelled from the spec: the modular inverse used by `mod_exp_signed` for
a negative exponent (§4.1), computed from the extended gcd and reduced
into `[0, n)`. -/
def invMod (a n : Nat) : Nat := (Nat.gcdA a n % (n : Int)).toNat

/-- Modelled from the spec: `arith.Modulus.ExpI(base, e)` computes
`base^e mod N` for a signed exponent `e`, inverting the base modulo N first
when `e` is negative (§4.1 `mod_exp_signed`). -/
def expI (n base : Nat) (e : Int) : Nat :=
  if 0 ≤ e then base ^ e.toNat % n else invMod base n ^ (-e).toNat % n

/-- `Verify(a, b, e, S, T)` from pedersen.go: nil checks, unit-group check on
S and T, then the comparison of `sᵃ·tᵇ mod N` with `S·Tᵉ mod N` (the source
computes `lhs = ModMul(sᵃ, tᵇ)` and `rhs = ModMul(Tᵉ, S)`). -/
def verify (p : Params) (a b e : Option Int) (S T : Option Nat) : Bool :=
  match a, b, e, S, T with
  | some a, some b, some e, some S, some T =>
    if !(isValidNatModN p.n S && isValidNatModN p.n T) then false
    else
      decide ((expI p.n p.s a * expI p.n p.t b) % p.n =
        (expI p.n T e * S) % p.n)
  | _, _, _, _, _ => false

end Pedersen

@[simp] theorem u16le_length (v : Nat) : (u16le v).length = 2 := rfl

theorem leU16_u16le (v : Nat) (h : v < 65536) : leU16 (u16le v) = v := by
  simp only [leU16, u16le, List.foldr_cons, List.foldr_nil]
  omega

theorem goSlice_append_left (l rest : List Nat) (b : Nat) (hb : b = l.length) :
    goSlice (l ++ rest) 0 b = some l := by
  subst hb
  rw [goSlice, if_pos ⟨Nat.zero_le _, by simp⟩]
  simp

theorem goSlice_append_mid (pre mid post : List Nat) (a b : Nat)
    (ha : a = pre.length) (hb : b = pre.length + mid.length) :
    goSlice (pre ++ (mid ++ post)) a b = some mid := by
  subst ha hb
  rw [goSlice, if_pos ⟨Nat.le_add_right _ _, by simp⟩]
  rw [Nat.add_sub_cancel_left, List.drop_left, List.take_left]

/-- Parsing a three-chunk length-prefixed buffer recovers the chunks. -/
theorem unmarshalBiinary_three (a b c : List Nat)
    (hla : a.length < 65536) (hlb : b.length < 65536) (hlc : c.length < 65536)
    (hA : natUnmarshal a ≠ 0) :
    Pedersen.unmarshalBiinary
        (u16le a.length ++ a ++ u16le b.length ++ b ++ u16le c.length ++ c) =
      .ok { n := natUnmarshal a, s := natUnmarshal b, t := natUnmarshal c } := by
  have h1 : goSlice
      (u16le a.length ++ a ++ u16le b.length ++ b ++ u16le c.length ++ c) 0 2 =
      some (u16le a.length) := by
    simp only [List.append_assoc]
    exact goSlice_append_left _ _ _ rfl
  have h2 : goSlice
      (u16le a.length ++ a ++ u16le b.length ++ b ++ u16le c.length ++ c) 2
      (2 + a.length) = some a := by
    simp only [List.append_assoc]
    exact goSlice_append_mid _ _ _ _ _ (by simp) (by simp)
  have h3 : goSlice
      (u16le a.length ++ a ++ u16le b.length ++ b ++ u16le c.length ++ c)
      (2 + a.length) (2 + a.length + 2) = some (u16le b.length) := by
    rw [show u16le a.length ++ a ++ u16le b.length ++ b ++ u16le c.length ++ c =
      (u16le a.length ++ a) ++ (u16le b.length ++ (b ++ (u16le c.length ++ c)))
      by simp]
    exact goSlice_append_mid _ _ _ _ _ (by simp) (by simp)
  have h4 : goSlice
      (u16le a.length ++ a ++ u16le b.length ++ b ++ u16le c.length ++ c)
      (2 + a.length + 2) (2 + a.length + 2 + b.length) = some b := by
    rw [show u16le a.length ++ a ++ u16le b.length ++ b ++ u16le c.length ++ c =
      (u16le a.length ++ a ++ u16le b.length) ++ (b ++ (u16le c.length ++ c))
      by simp]
    refine goSlice_append_mid _ _ _ _ _ (by simp only [List.length_append, u16le_length]; try omega) (by simp only [List.length_append, u16le_length]; try omega)
  have h5 : goSlice
      (u16le a.length ++ a ++ u16le b.length ++ b ++ u16le c.length ++ c)
      (2 + a.length + 2 + b.length) (2 + a.length + 2 + b.length + 2) =
      some (u16le c.length) := by
    rw [show u16le a.length ++ a ++ u16le b.length ++ b ++ u16le c.length ++ c =
      (u16le a.length ++ a ++ u16le b.length ++ b) ++
        (u16le c.length ++ c) by simp]
    refine goSlice_append_mid _ _ _ _ _ (by simp only [List.length_append, u16le_length]; try omega) (by simp only [List.length_append, u16le_length]; try omega)
  have h6 : goSlice
      (u16le a.length ++ a ++ u16le b.length ++ b ++ u16le c.length ++ c)
      (2 + a.length + 2 + b.length + 2)
      (2 + a.length + 2 + b.length + 2 + c.length) = some c := by
    rw [show u16le a.length ++ a ++ u16le b.length ++ b ++ u16le c.length ++ c =
      (u16le a.length ++ a ++ u16le b.length ++ b ++ u16le c.length) ++
        (c ++ []) by simp]
    refine goSlice_append_mid _ _ _ _ _ (by simp only [List.length_append, u16le_length]; try omega) (by simp only [List.length_append, u16le_length]; try omega)
  rw [Pedersen.unmarshalBiinary]
  rw [h1]
  simp only [leU16_u16le _ hla, leU16_u16le _ hlb, leU16_u16le _ hlc]
  rw [h2, h3]
  simp only [leU16_u16le _ hlb]
  rw [h4, h5]
  simp only [leU16_u16le _ hlc]
  rw [h6]
  simp [Pedersen.modUnmarshal, hA]

/-- C9: for valid Pedersen parameters whose component encodings fit a u16
length (which the wire format presupposes), `MarshalBiinary` produces
exactly `u16_le(len N) || N || u16_le(len s) || s || u16_le(len t) || t`,
and `UnmarshalBiinary` of that buffer recovers parameters equal to p. -/
theorem pedersen_marshal_roundtrip (p : Mpc.Pedersen.Params)
    (hv : p.valid)
    (hn : (natMarshal p.n).length < 65536)
    (hs : (natMarshal p.s).length < 65536)
    (ht : (natMarshal p.t).length < 65536) :
    Pedersen.marshalBiinary p =
      u16le (natMarshal p.n).length ++ natMarshal p.n ++
        u16le (natMarshal p.s).length ++ natMarshal p.s ++
          u16le (natMarshal p.t).length ++ natMarshal p.t ∧
    Pedersen.unmarshalBiinary (Pedersen.marshalBiinary p) = .ok p := by
  have hn0 : p.n ≠ 0 := by
    intro h0
    rw [Pedersen.Params.valid, Pedersen.validateParameters] at hv
    have : Pedersen.isValidNatModN p.n p.s = false := by
      simp [Pedersen.isValidNatModN, h0]
      omega
    simp [this] at hv
  refine ⟨rfl, ?_⟩
  rw [show Pedersen.marshalBiinary p =
    u16le (natMarshal p.n).length ++ natMarshal p.n ++
      u16le (natMarshal p.s).length ++ natMarshal p.s ++
        u16le (natMarshal p.t).length ++ natMarshal p.t from rfl]
  rw [unmarshalBiinary_three _ _ _ hn hs ht
    (by rw [natUnmarshal_natMarshal]; exact hn0)]
  simp [natUnmarshal_natMarshal]

/-- Witness for C9 at concrete parameters (N = 35, s = 2, t = 3). -/
theorem pedersen_marshal_roundtrip_witness :
    Pedersen.marshalBiinary ⟨35, 2, 3⟩ =
      u16le (natMarshal 35).length ++ natMarshal 35 ++
        u16le (natMarshal 2).length ++ natMarshal 2 ++
          u16le (natMarshal 3).length ++ natMarshal 3 ∧
    Pedersen.unmarshalBiinary (Pedersen.marshalBiinary ⟨35, 2, 3⟩) =
      .ok ⟨35, 2, 3⟩ :=
  pedersen_marshal_roundtrip ⟨35, 2, 3⟩ (by decide) (by decide) (by decide)
    (by decide)

/-- C7: `ValidateParameters` returns NilFields exactly when an argument is
nil; for non-nil arguments it returns NotInUnitGroup (ErrNotValidModN)
exactly when s or t fails the unit-group test, SEqualsT (ErrSEqualT) exactly
when both pass and s = t, and no error otherwise; in particular
`validate_parameters(N, s, s)` with s in the unit group returns SEqualsT and
`validate_parameters(N, 0, t)` returns NotInUnitGroup. -/
theorem validateParameters_characterization :
    (∀ n s t : Option Nat,
      Pedersen.validateParameters n s t = some .nilFields ↔
        (n = none ∨ s = none ∨ t = none)) ∧
    (∀ N S T : Nat,
      Pedersen.validateParameters (some N) (some S) (some T) =
          some .notValidModN ↔
        ¬(Pedersen.isValidNatModN N S ∧ Pedersen.isValidNatModN N T)) ∧
    (∀ N S T : Nat,
      Pedersen.validateParameters (some N) (some S) (some T) = some .sEqualT ↔
        (Pedersen.isValidNatModN N S ∧ Pedersen.isValidNatModN N T ∧ S = T)) ∧
    (∀ N S T : Nat,
      Pedersen.validateParameters (some N) (some S) (some T) = none ↔
        (Pedersen.isValidNatModN N S ∧ Pedersen.isValidNatModN N T ∧ S ≠ T)) ∧
    (∀ N S : Nat, Pedersen.isValidNatModN N S →
      Pedersen.validateParameters (some N) (some S) (some S) = some .sEqualT) ∧
    (∀ N T : Nat,
      Pedersen.validateParameters (some N) (some 0) (some T) =
        some .notValidModN) := by
  refine ⟨?_, ?_, ?_, ?_, ?_, ?_⟩
  · rintro (_ | n) (_ | s) (_ | t) <;>
      simp only [Pedersen.validateParameters] <;> try simp
    split
    · simp
    · split <;> simp
  · intro N S T
    by_cases hST : S = T
    · subst hST
      cases hS : Pedersen.isValidNatModN N S <;>
        simp [Pedersen.validateParameters, hS]
    · cases hS : Pedersen.isValidNatModN N S <;>
        cases hT : Pedersen.isValidNatModN N T <;>
        simp [Pedersen.validateParameters, hS, hT, hST]
  · intro N S T
    by_cases hST : S = T
    · subst hST
      cases hS : Pedersen.isValidNatModN N S <;>
        simp [Pedersen.validateParameters, hS]
    · cases hS : Pedersen.isValidNatModN N S <;>
        cases hT : Pedersen.isValidNatModN N T <;>
        simp [Pedersen.validateParameters, hS, hT, hST]
  · intro N S T
    by_cases hST : S = T
    · subst hST
      cases hS : Pedersen.isValidNatModN N S <;>
        simp [Pedersen.validateParameters, hS]
    · cases hS : Pedersen.isValidNatModN N S <;>
        cases hT : Pedersen.isValidNatModN N T <;>
        simp [Pedersen.validateParameters, hS, hT, hST]
  · intro N S h
    simp [Pedersen.validateParameters, h]
  · intro N T
    have : Pedersen.isValidNatModN N 0 = false := by
      simp [Pedersen.isValidNatModN]
    simp [Pedersen.validateParameters, this]

/-- Witness for C7: concrete evaluations via the theorem. -/
theorem validateParameters_characterization_witness :
    Pedersen.validateParameters (some 35) (some 2) (some 2) =
        some .sEqualT ∧
    Pedersen.validateParameters (some 35) (some 0) (some 3) =
        some .notValidModN :=
  ⟨validateParameters_characterization.2.2.2.2.1 35 2 (by decide),
   validateParameters_characterization.2.2.2.2.2 35 3⟩

/-! ## Pedersen verify (C8) -/

theorem valid_facts {n a : Nat} (h : Pedersen.isValidNatModN n a = true) :
    1 ≤ a ∧ a ≤ n - 1 ∧ Nat.gcd a n = 1 := by
  simp only [Pedersen.isValidNatModN, Bool.and_eq_true, decide_eq_true_eq] at h
  exact ⟨h.1.1, h.1.2, h.2⟩

theorem coprime_of_valid {n a : Nat}
    (h : Pedersen.isValidNatModN n a = true) : Nat.Coprime a n :=
  (valid_facts h).2.2

theorem two_le_of_valid {n a : Nat}
    (h : Pedersen.isValidNatModN n a = true) : 2 ≤ n := by
  have := valid_facts h
  omega

theorem invMod_mul_cast (a n : Nat) (hn : 0 < n) (h : Nat.Coprime a n) :
    ((a * Pedersen.invMod a n : Nat) : ZMod n) = 1 := by
  have hbez : (1 : Int) = a * Nat.gcdA a n + n * Nat.gcdB a n := by
    have := Nat.gcd_eq_gcd_ab a n
    rwa [h] at this
  have hnneg : (0 : Int) ≤ Nat.gcdA a n % (n : Int) :=
    Int.emod_nonneg _ (by exact_mod_cast hn.ne')
  have hcast : ((Pedersen.invMod a n : Nat) : Int) = Nat.gcdA a n % (n : Int) := by
    rw [Pedersen.invMod, Int.toNat_of_nonneg hnneg]
  have hmod : ((a * Pedersen.invMod a n : Nat) : Int) % (n : Int) =
      (1 : Int) % (n : Int) := by
    push_cast
    rw [hcast]
    conv_lhs => rw [Int.mul_emod, Int.emod_emod_of_dvd _ dvd_rfl]
    rw [← Int.mul_emod]
    conv_rhs => rw [hbez]
    rw [Int.add_mul_emod_self_left]
  have h2 : (((a * Pedersen.invMod a n : Nat) : Int) : ZMod n) =
      ((1 : Int) : ZMod n) := by
    rw [← ZMod.intCast_mod ((a * Pedersen.invMod a n : Nat) : Int) n, hmod,
      ZMod.intCast_mod]
  simpa using h2

theorem invMod_cast_unit (x n : Nat) (hn : 0 < n) (hx : Nat.Coprime x n) :
    ((Pedersen.invMod x n : Nat) : ZMod n) =
      (((ZMod.unitOfCoprime x hx)⁻¹ : (ZMod n)ˣ) : ZMod n) := by
  have hmul : ((x : ZMod n)) * (Pedersen.invMod x n : ZMod n) = 1 := by
    have := invMod_mul_cast x n hn hx
    push_cast at this
    exact this
  have hu : ((ZMod.unitOfCoprime x hx : (ZMod n)ˣ) : ZMod n) = (x : ZMod n) :=
    ZMod.coe_unitOfCoprime x hx
  calc ((Pedersen.invMod x n : Nat) : ZMod n)
      = (((ZMod.unitOfCoprime x hx)⁻¹ : (ZMod n)ˣ) : ZMod n) *
          (((ZMod.unitOfCoprime x hx : (ZMod n)ˣ) : ZMod n) *
            (Pedersen.invMod x n : ZMod n)) := by
        rw [← mul_assoc, ← Units.val_mul, inv_mul_cancel, Units.val_one,
          one_mul]
    _ = (((ZMod.unitOfCoprime x hx)⁻¹ : (ZMod n)ˣ) : ZMod n) := by
        rw [hu, hmul, mul_one]

theorem expI_cast_unit (n x : Nat) (hn : 0 < n) (hx : Nat.Coprime x n)
    (e : Int) :
    ((Pedersen.expI n x e : Nat) : ZMod n) =
      ((ZMod.unitOfCoprime x hx ^ e : (ZMod n)ˣ) : ZMod n) := by
  by_cases he : 0 ≤ e
  · rw [Pedersen.expI, if_pos he]
    rw [ZMod.natCast_mod]
    push_cast
    rw [← ZMod.coe_unitOfCoprime x hx, ← Units.val_pow_eq_pow_val]
    congr 1
    rw [← zpow_natCast, Int.toNat_of_nonneg he]
  · rw [Pedersen.expI, if_neg he]
    rw [ZMod.natCast_mod]
    push_cast
    rw [invMod_cast_unit x n hn hx, ← Units.val_pow_eq_pow_val]
    congr 1
    rw [inv_pow, ← zpow_natCast, ← zpow_neg]
    congr 1
    omega

/-- C8: for validated Pedersen parameters, `Verify` returns true exactly when
`s^a · t^b = S · T^e` holds in the unit group of ℤ/N (signed exponents read
as zpow in the group of units); it returns false whenever S or T fails the
unit-group test, and whenever any argument is nil. -/
theorem pedersen_verify_characterization (p : Mpc.Pedersen.Params)
    (hs : Pedersen.isValidNatModN p.n p.s = true)
    (ht : Pedersen.isValidNatModN p.n p.t = true) :
    (∀ (a b e : Int) (S T : Nat)
      (hS : Pedersen.isValidNatModN p.n S = true)
      (hT : Pedersen.isValidNatModN p.n T = true),
      (Pedersen.verify p (some a) (some b) (some e) (some S) (some T) = true ↔
        ZMod.unitOfCoprime p.s (coprime_of_valid hs) ^ a *
            ZMod.unitOfCoprime p.t (coprime_of_valid ht) ^ b =
          ZMod.unitOfCoprime S (coprime_of_valid hS) *
            ZMod.unitOfCoprime T (coprime_of_valid hT) ^ e)) ∧
    (∀ (a b e : Int) (S T : Nat),
      Pedersen.isValidNatModN p.n S = false ∨
        Pedersen.isValidNatModN p.n T = false →
      Pedersen.verify p (some a) (some b) (some e) (some S) (some T) =
        false) ∧
    (∀ (a b e : Option Int) (S T : Option Nat),
      a = none ∨ b = none ∨ e = none ∨ S = none ∨ T = none →
      Pedersen.verify p a b e S T = false) := by
  have hn : 0 < p.n := by have := two_le_of_valid hs; omega
  haveI : NeZero p.n := ⟨by omega⟩
  refine ⟨?_, ?_, ?_⟩
  · intro a b e S T hS hT
    have hdec : (Pedersen.verify p (some a) (some b) (some e) (some S)
        (some T) = true) ↔
        ((Pedersen.expI p.n p.s a * Pedersen.expI p.n p.t b) % p.n =
          (Pedersen.expI p.n T e * S) % p.n) := by
      simp [Pedersen.verify, hS, hT]
    have cast_lhs :
        (((Pedersen.expI p.n p.s a * Pedersen.expI p.n p.t b) % p.n : Nat) :
            ZMod p.n) =
          ((ZMod.unitOfCoprime p.s (coprime_of_valid hs) ^ a *
              ZMod.unitOfCoprime p.t (coprime_of_valid ht) ^ b :
            (ZMod p.n)ˣ) : ZMod p.n) := by
      rw [ZMod.natCast_mod, Nat.cast_mul,
        expI_cast_unit p.n p.s hn (coprime_of_valid hs) a,
        expI_cast_unit p.n p.t hn (coprime_of_valid ht) b, ← Units.val_mul]
    have cast_rhs :
        (((Pedersen.expI p.n T e * S) % p.n : Nat) : ZMod p.n) =
          ((ZMod.unitOfCoprime S (coprime_of_valid hS) *
              ZMod.unitOfCoprime T (coprime_of_valid hT) ^ e :
            (ZMod p.n)ˣ) : ZMod p.n) := by
      rw [ZMod.natCast_mod, Nat.cast_mul,
        expI_cast_unit p.n T hn (coprime_of_valid hT) e,
        ← ZMod.coe_unitOfCoprime S (coprime_of_valid hS), ← Units.val_mul]
      exact congrArg _ (mul_comm _ _)
    rw [hdec]
    constructor
    · intro hEq
      have hc := congrArg (fun x : Nat => (x : ZMod p.n)) hEq
      simp only at hc
      rw [cast_lhs, cast_rhs] at hc
      exact Units.ext hc
    · intro hU
      have hc : (((Pedersen.expI p.n p.s a * Pedersen.expI p.n p.t b) % p.n :
          Nat) : ZMod p.n) =
          (((Pedersen.expI p.n T e * S) % p.n : Nat) : ZMod p.n) := by
        rw [cast_lhs, cast_rhs, hU]
      have hval := congrArg ZMod.val hc
      rwa [ZMod.val_cast_of_lt (Nat.mod_lt _ hn),
        ZMod.val_cast_of_lt (Nat.mod_lt _ hn)] at hval
  · intro a b e S T h
    rcases h with h | h <;> simp [Pedersen.verify, h]
  · intro a b e S T h
    rcases a with _ | a <;> rcases b with _ | b <;> rcases e with _ | e <;>
      rcases S with _ | S <;> rcases T with _ | T <;>
      first
        | rfl
        | simp at h

/-- Witness for C8: a concrete true verification through the theorem. -/
theorem pedersen_verify_characterization_witness :
    Pedersen.verify ⟨35, 2, 3⟩ (some 1) (some 1) (some 1) (some 2)
      (some 3) = true :=
  ((pedersen_verify_characterization ⟨35, 2, 3⟩ (by decide) (by decide)).1
    1 1 1 2 3 (by decide) (by decide)).mpr (by decide)

/-! ## Paillier key codec (`src/unnamed/part_000`) and key manager -/

namespace Paillier

/-- `PaillierKey` of part_000: an optional public modulus (nil pointer when
absent, as in the zero value `PaillierKey{}`) and an optional secret prime
pair (P, Q). -/
structure Key where
  publicKey : Option Nat
  secret : Option (Nat × Nat)
  deriving DecidableEq, Repr

/-- The zero value `PaillierKey{}`. -/
def emptyKey : Key := ⟨none, none⟩

/-- Modelled from the spec: `pailliercore.SecretKey.MarshalBinary` encodes
`u16_le(len p) || p || u16_le(len q) || q` (§6 Paillier key wire format). -/
def skMarshal (p q : Nat) : List Nat :=
  u16le (natMarshal p).length ++ natMarshal p ++
    u16le (natMarshal q).length ++ natMarshal q

/-- Modelled from the spec: `pailliercore.SecretKey.UnmarshalBinary` parses
the two length-prefixed primes back. -/
def skUnmarshal (data : List Nat) : Except Unit (Nat × Nat) :=
  match goSlice data 0 2 with
  | none => .error ()
  | some plb =>
    let pl := leU16 plb
    match goSlice data 2 (2 + pl) with
    | none => .error ()
    | some pb =>
      match goSlice data (2 + pl) (2 + pl + 2) with
      | none => .error ()
      | some qlb =>
        let ql := leU16 qlb
        match goSlice data (2 + pl + 2) (2 + pl + 2 + ql) with
        | none => .error ()
        | some qb => .ok (natUnmarshal pb, natUnmarshal qb)

/-- `Bytes` of part_000: `u16_le(len N) || N`, then, only when a secret key
is present, `u16_le(len skb) || skb`. Dereferencing a nil public key is
`none` (a Go nil-pointer panic). -/
def bytes (k : Key) : Option (List Nat) :=
  match k.publicKey with
  | none => none
  | some n =>
    match k.secret with
    | none => some (u16le (Pedersen.modMarshal n).length ++ Pedersen.modMarshal n)
    | some (p, q) =>
      some (u16le (Pedersen.modMarshal n).length ++ Pedersen.modMarshal n ++
        u16le (skMarshal p q).length ++ skMarshal p q)

/-- Decode failures of `fromBytes`: a Go slice out of range (a panic in Go)
or a component unmarshal error. -/
inductive DErr where
  | outOfRange
  | decodeFail
  deriving DecidableEq, Repr

/-- `fromBytes` of part_000, reading the slices at the offsets written in
the source; in particular `data[nl+2 : nl+4]` is read unconditionally after
the modulus, whether or not the buffer extends past the modulus bytes. -/
def fromBytes (data : List Nat) : Except DErr Key :=
  match goSlice data 0 2 with
  | none => .error .outOfRange
  | some nlb =>
    let nl := leU16 nlb
    if nl = 0 then .ok emptyKey
    else
      match goSlice data 2 (nl + 2) with
      | none => .error .outOfRange
      | some nb =>
        match Pedersen.modUnmarshal nb with
        | .error _ => .error .decodeFail
        | .ok n =>
          match goSlice data (nl + 2) (nl + 4) with
          | none => .error .outOfRange
          | some slb =>
            let sl := leU16 slb
            if sl = 0 then .ok ⟨some n, none⟩
            else
              match goSlice data (nl + 4) (nl + 4 + sl) with
              | none => .error .outOfRange
              | some sb =>
                match skUnmarshal sb with
                | .error _ => .error .decodeFail
                | .ok pq => .ok ⟨some n, some pq⟩

/-- `PaillierKeyManager.GetKey`: on a keystore `Get` error and on a
`fromBytes` error it returns `(PaillierKey{}, nil)` — both error branches
return a nil error. -/
def managerGetKey (storeGet : Except Unit (List Nat)) : Key × Option Unit :=
  match storeGet with
  | .error _ => (emptyKey, none)
  | .ok decoded =>
    match fromBytes decoded with
    | .error _ => (emptyKey, none)
    | .ok key => (key, none)

end Paillier

theorem natMarshal_length_pos {n : Nat} (hn : n ≠ 0) :
    0 < (natMarshal n).length := by
  rw [natMarshal]
  rcases n with _ | m
  · exact absurd rfl hn
  · rw [natBytesAux]
    simp

/-- C3 (general form): decoding the encoding of a public-only Paillier key
reads two bytes past the end of the buffer: `Bytes` emits no secret-length
field, but `fromBytes` reads `data[nl+2 : nl+4]` unconditionally, which is
out of range on the `nl+2`-byte buffer (a Go slice-bounds panic). -/
theorem paillier_pubonly_decode_out_of_range (n : Nat) (hn : n ≠ 0)
    (hlen : (natMarshal n).length < 65536) :
    Paillier.bytes ⟨some n, none⟩ =
      some (u16le (natMarshal n).length ++ natMarshal n) ∧
    Paillier.fromBytes (u16le (natMarshal n).length ++ natMarshal n) =
      .error .outOfRange := by
  refine ⟨rfl, ?_⟩
  have h1 : goSlice (u16le (natMarshal n).length ++ natMarshal n) 0 2 =
      some (u16le (natMarshal n).length) :=
    goSlice_append_left _ _ _ rfl
  have hpos := natMarshal_length_pos hn
  have h2 : goSlice (u16le (natMarshal n).length ++ natMarshal n) 2
      ((natMarshal n).length + 2) = some (natMarshal n) := by
    rw [show u16le (natMarshal n).length ++ natMarshal n =
      u16le (natMarshal n).length ++ (natMarshal n ++ []) by simp]
    exact goSlice_append_mid _ _ _ _ _ (by simp)
      (by simp only [List.length_append, u16le_length]; try omega)
  have h3 : goSlice (u16le (natMarshal n).length ++ natMarshal n)
      ((natMarshal n).length + 2) ((natMarshal n).length + 4) = none := by
    rw [goSlice, if_neg]
    simp only [List.length_append, u16le_length]
    omega
  rw [Paillier.fromBytes, h1]
  simp only [leU16_u16le _ hlen]
  rw [if_neg (by omega)]
  have hmod : Pedersen.modUnmarshal (natMarshal n) = .ok n := by
    rw [Pedersen.modUnmarshal, natUnmarshal_natMarshal, if_neg hn]
  simp only [h2, hmod, h3]

/-- Witness for C3: the concrete public-only key with modulus 35; its
encoding is `[0x01, 0x00, 0x23]` and decoding it goes out of range. -/
theorem paillier_pubonly_decode_out_of_range_witness :
    Paillier.bytes ⟨some 35, none⟩ = some [1, 0, 35] ∧
    Paillier.fromBytes [1, 0, 35] = .error .outOfRange := by
  have h := paillier_pubonly_decode_out_of_range 35 (by decide) (by decide)
  have he : u16le (natMarshal 35).length ++ natMarshal 35 = [1, 0, 35] := by
    decide
  exact ⟨by rw [h.1, he], by rw [← he]; exact h.2⟩

/-- C2: `PaillierKeyManager.GetKey` returns a nil error on both failure
paths: when the keystore `Get` fails, and when `fromBytes` fails on the
returned blob (here a zero modulus encoding), the result is
`(PaillierKey{}, nil)` — the error is swallowed, not surfaced. -/
theorem managerGetKey_swallows_errors :
    Paillier.managerGetKey (.error ()) = (Paillier.emptyKey, none) ∧
    Paillier.fromBytes [2, 0, 0, 0] = .error .decodeFail ∧
    Paillier.managerGetKey (.ok [2, 0, 0, 0]) =
      (Paillier.emptyKey, none) := by
  exact ⟨rfl, rfl, rfl⟩

/-! ## Transcript hash (`hash` package bundled in pedersen.go) -/

namespace Transcript

/-- The `Hash` struct: the rolling hasher is modelled by the exact byte
stream fed to it, `state` is the replayable list of (domain, data) pairs.
Go strings are byte strings, so domains are `List Nat` too. -/
structure T where
  stream : List Nat
  state : List (List Nat × List Nat)
  deriving DecidableEq, Repr

/-- The framing of `writeBytesWithDomain`:
`"(" || u64_be(len domain) || domain || u64_be(len data) || data || ")"`
(byte 40 is the opening parenthesis, byte 41 the closing one). -/
def frame (d : List Nat × List Nat) : List Nat :=
  [40] ++ u64be d.1.length ++ d.1 ++ u64be d.2.length ++ d.2 ++ [41]

/-- `writeBytesWithDomain`: feeds the framed bytes to the hasher. -/
def writeBytesWithDomain (h : T) (d : List Nat × List Nat) : T :=
  { h with stream := h.stream ++ frame d }

/-- `updateState`: appends the pair to the replayable state list (the
keystore Import of the cbor-encoded state is external I/O, not modelled). -/
def updateState (h : T) (d : List Nat × List Nat) : T :=
  { h with state := h.state ++ [d] }

/-- The tail of `WriteAny` for an accepted (domain, data) pair: record the
pair in `state`, then feed the framed bytes to the hasher. -/
def writeAccepted (h : T) (d : List Nat × List Nat) : T :=
  writeBytesWithDomain (updateState h d) d

/-- `core_hash.DigestLengthBytes`. -/
def digestLengthBytes : Nat := 32

/-- `Sum()` reads `DigestLengthBytes` bytes from the digest stream.
Modelled from the spec: the BLAKE3 XOF is external and is modelled as an
arbitrary deterministic function `digestByte` from the accumulated input
stream and an output index to a byte. -/
def tsum (digestByte : List Nat → Nat → Nat) (h : T) : List Nat :=
  (List.range digestLengthBytes).map (digestByte h.stream)

end Transcript

/-- C10: each accepted write feeds the hasher exactly the framed byte string
`"(" || u64_be(len domain) || domain || u64_be(len data) || data || ")"`,
so after any sequence of writes the hasher stream is the initial stream
followed by the concatenated frames; hence two transcripts with equal
hasher streams that receive the same write sequence produce identical
`Sum()` digests, of 32 bytes. -/
theorem transcript_framing_deterministic
    (digestByte : List Nat → Nat → Nat) (h : Transcript.T)
    (writes : List (List Nat × List Nat)) :
    ((writes.foldl Transcript.writeAccepted h).stream =
      h.stream ++ (writes.map Transcript.frame).flatten) ∧
    (∀ h₂ : Transcript.T, h₂.stream = h.stream →
      Transcript.tsum digestByte (writes.foldl Transcript.writeAccepted h₂) =
        Transcript.tsum digestByte (writes.foldl Transcript.writeAccepted h)) ∧
    (Transcript.tsum digestByte
      (writes.foldl Transcript.writeAccepted h)).length = 32 := by
  have key : ∀ (ws : List (List Nat × List Nat)) (h₀ : Transcript.T),
      (ws.foldl Transcript.writeAccepted h₀).stream =
        h₀.stream ++ (ws.map Transcript.frame).flatten := by
    intro ws
    induction ws with
    | nil => intro h₀; simp
    | cons w rest ih =>
      intro h₀
      rw [List.foldl_cons, ih]
      simp [Transcript.writeAccepted, Transcript.writeBytesWithDomain,
        Transcript.updateState]
  refine ⟨key writes h, ?_, ?_⟩
  · intro h₂ hstream
    unfold Transcript.tsum
    rw [key writes h₂, key writes h, hstream]
  · simp [Transcript.tsum, Transcript.digestLengthBytes]

/-- Witness for C10: two concrete transcripts with equal initial streams but
different replay states receive the same write and produce the same sum. -/
theorem transcript_framing_deterministic_witness :
    Transcript.tsum (fun s i => (s.length + i) % 256)
        ([([1], [2])].foldl Transcript.writeAccepted ⟨[], []⟩) =
      Transcript.tsum (fun s i => (s.length + i) % 256)
        ([([1], [2])].foldl Transcript.writeAccepted ⟨[], [([3], [4])]⟩) :=
  (transcript_framing_deterministic (fun s i => (s.length + i) % 256)
    ⟨[], [([3], [4])]⟩ [([1], [2])]).2.1 ⟨[], []⟩ rfl

/-! ## Presign round 5 (`src/protocols/cmp/presign/presign5.go`) -/

namespace Presign

/-- Errors of the round package used by round 5 (plus DuplicateMessage from
the closed error set of the spec). -/
inductive RErr where
  | invalidContent
  | nilFields
  | duplicateMessage
  | notEnoughMessages
  deriving DecidableEq, Repr

/-- Association-list lookup for a Go map read `m[k]`. -/
def alookup {ID P : Type} [DecidableEq ID] :
    List (ID × P) → ID → Option P
  | [], _ => none
  | (k₂, v) :: rest, k => if k₂ = k then some v else alookup rest k

/-- Association-list update for a Go map write `m[k] = v` (replaces the
binding if the key is present, appends it otherwise). -/
def aset {ID P : Type} [DecidableEq ID] :
    List (ID × P) → ID → P → List (ID × P)
  | [], k, v => [(k, v)]
  | (k₂, w) :: rest, k, v =>
    if k₂ = k then (k, v) :: rest else (k₂, w) :: aset rest k v

/-- The key set of a Go `map[ID]bool` to which only `m[k] = true` writes are
made: inserting an existing key leaves the set unchanged; `len(m)` is the
list length. -/
def insertOnce {ID : Type} [DecidableEq ID] (l : List ID) (k : ID) : List ID :=
  if k ∈ l then l else l ++ [k]

/-- The `presign5` round state: `BigGammaShare` and the ElGamal maps are
association lists (Go map iteration order is arbitrary, settled by the
permutation lemma of finalize), `MessageBroadcasted` is the key set of the
received-flag map, `nParties` is `r.N()`, and the embedded earlier-round
fields that round 5 reads (`SelfID`, `KShare`, `ElGamalK`, `ElGamal`,
`ElGamalKNonce`) are carried inline. -/
structure Round5 (ID P S : Type) where
  bigGammaShare : List (ID × P)
  messageBroadcasted : List ID
  nParties : Nat
  selfID : ID
  kShare : S
  elGamalK : List (ID × P)
  elGamal : List (ID × P)
  elGamalKNonce : S
  deriving DecidableEq

/-- The round-5 message contents: a `*broadcast5` (possibly a nil pointer:
`body == nil`), a `*message5`, or any other content type (the failed type
assertion). The broadcast body carries `BigGammaShare`. -/
inductive Content (P : Type) where
  | broadcast5 (body : Option P)
  | message5
  | other
  deriving DecidableEq

/-- A round message as seen by `StoreBroadcastMessage`: sender and content. -/
structure Msg (ID P : Type) where
  From : ID
  content : Content P
  deriving DecidableEq

/-- `StoreBroadcastMessage` of presign5.go: type-assert the content, reject
a nil body (`ErrInvalidContent`), reject an identity `BigGammaShare`
(`ErrNilFields`), otherwise store `Γⱼ` and mark the sender, and return the
(possibly updated) receiver state together with the returned error. -/
def storeBroadcastMessage {ID P S : Type} [DecidableEq ID] [AddCommMonoid P]
    [DecidableEq P] (r : Round5 ID P S) (msg : Msg ID P) :
    Round5 ID P S × Option RErr :=
  match msg.content with
  | .broadcast5 none => (r, some .invalidContent)
  | .broadcast5 (some g) =>
    if g = 0 then (r, some .nilFields)
    else
      ({ r with
          bigGammaShare := aset r.bigGammaShare msg.From g,
          messageBroadcasted := insertOnce r.messageBroadcasted msg.From },
        none)
  | _ => (r, some .invalidContent)

/-- The public statement of the ZK-elog proof built in finalize. -/
structure ElogPublic (P : Type) where
  e : P
  elGamalPublic : P
  base : P
  y : P
  deriving DecidableEq

/-- Modelled from the spec: `zkelog.NewProof` returns a non-interactive
proof of the public statement (§4.5); its Fiat-Shamir internals and the
witness are abstracted, the proof is identified by its statement. -/
structure ElogProof (P : Type) where
  pub : ElogPublic P
  deriving DecidableEq

/-- Modelled from the spec: proof construction for the given statement. -/
def zkelogNewProof {P : Type} (pub : ElogPublic P) : ElogProof P := ⟨pub⟩

/-- The `broadcast6` content emitted by finalize. -/
structure Broadcast6 (P : Type) where
  bigDeltaShare : P
  proof : ElogProof P
  deriving DecidableEq

/-- The `presign6` session returned by a successful finalize. -/
structure Round6 (ID P S : Type) where
  round5 : Round5 ID P S
  gamma : P
  bigDeltaShares : List (ID × P)
  messageBroadcasted : List ID
  deriving DecidableEq

/-- Result of `Finalize`: `(nil, ErrNotEnoughMessages)`,
`(r, err)` from a failed `BroadcastMessage`, or the next session together
with the emitted broadcast. -/
inductive FinalizeResult (ID P S : Type) where
  | notEnoughMessages
  | broadcastError
  | success (next : Round6 ID P S) (outMsg : Broadcast6 P)
  deriving DecidableEq

/-- `Finalize` of presign5.go: the `N−1` gate, the sum `Γ = Σⱼ Γⱼ` folded
over the stored map values, `Δᵢ = kᵢ•Γ`, the ZK-elog proof over
`(E, ElGamalPublic, Base = Γ, Y = Δᵢ)`, the broadcast of `(Δᵢ, proof)`
(whose transport may fail, `broadcastOk`), and the `presign6` successor
with a fresh empty `MessageBroadcasted`. A Go map read that misses yields
the zero value, modelled by `getD 0`. -/
def finalize {ID P S : Type} [DecidableEq ID] [AddCommMonoid P] [SMul S P]
    (r : Round5 ID P S) (broadcastOk : Bool) : FinalizeResult ID P S :=
  if r.messageBroadcasted.length ≠ r.nParties - 1 then .notEnoughMessages
  else
    let gamma := (r.bigGammaShare.map Prod.snd).foldl (· + ·) 0
    let bigDeltaShare := r.kShare • gamma
    let proofLog := zkelogNewProof
      { e := (alookup r.elGamalK r.selfID).getD 0
        elGamalPublic := (alookup r.elGamal r.selfID).getD 0
        base := gamma
        y := bigDeltaShare }
    if broadcastOk then
      .success
        { round5 := r
          gamma := gamma
          bigDeltaShares := [(r.selfID, bigDeltaShare)]
          messageBroadcasted := [] }
        { bigDeltaShare := bigDeltaShare, proof := proofLog }
    else .broadcastError

/-- `CanFinalize` of presign5.go. -/
def canFinalize {ID P S : Type} (r : Round5 ID P S) : Bool :=
  decide (r.messageBroadcasted.length = r.nParties - 1)

theorem alookup_aset {ID P : Type} [DecidableEq ID]
    (l : List (ID × P)) (k : ID) (v : P) :
    alookup (aset l k v) k = some v := by
  induction l with
  | nil => simp [aset, alookup]
  | cons hd rest ih =>
    obtain ⟨k₂, w⟩ := hd
    by_cases hk : k₂ = k
    · simp [aset, hk, alookup]
    · simp [aset, hk, alookup, ih]

theorem insertOnce_of_mem {ID : Type} [DecidableEq ID] {l : List ID} {k : ID}
    (h : k ∈ l) : insertOnce l k = l := by
  simp [insertOnce, h]

theorem mem_insertOnce_self {ID : Type} [DecidableEq ID] (l : List ID)
    (k : ID) : k ∈ insertOnce l k := by
  by_cases h : k ∈ l
  · rw [insertOnce_of_mem h]
    exact h
  · simp [insertOnce, h]

end Presign

/-- C1 (counterexample): in presign round 5 a second broadcast from the same
sender j = 1 is NOT rejected with DuplicateMessage: the second
`StoreBroadcastMessage` also returns no error and overwrites the stored
`BigGammaShare[1]` from 5 to 7 (over ID = ℕ, points in the additive group
ℤ, scalars ℤ). -/
theorem presign5_second_broadcast_accepted_cex :
    (Presign.storeBroadcastMessage
        (Presign.storeBroadcastMessage
          (⟨[], [], 3, 0, 1, [], [], 0⟩ : Presign.Round5 Nat Int Int)
          ⟨1, .broadcast5 (some 5)⟩).1
        ⟨1, .broadcast5 (some 7)⟩).2 ≠ some .duplicateMessage ∧
    (Presign.storeBroadcastMessage
        (Presign.storeBroadcastMessage
          (⟨[], [], 3, 0, 1, [], [], 0⟩ : Presign.Round5 Nat Int Int)
          ⟨1, .broadcast5 (some 5)⟩).1
        ⟨1, .broadcast5 (some 7)⟩).2 = none ∧
    Presign.alookup
      (Presign.storeBroadcastMessage
          (Presign.storeBroadcastMessage
            (⟨[], [], 3, 0, 1, [], [], 0⟩ : Presign.Round5 Nat Int Int)
            ⟨1, .broadcast5 (some 5)⟩).1
          ⟨1, .broadcast5 (some 7)⟩).1.bigGammaShare 1 = some 7 ∧
    Presign.alookup
      (Presign.storeBroadcastMessage
          (⟨[], [], 3, 0, 1, [], [], 0⟩ : Presign.Round5 Nat Int Int)
          ⟨1, .broadcast5 (some 5)⟩).1.bigGammaShare 1 = some 5 := by
  decide

/-- C1 (amended): `StoreBroadcastMessage` has no duplicate check: when a
broadcast from sender j was already recorded, a second well-formed
non-identity broadcast from j is accepted again — it returns no error,
overwrites `BigGammaShare[j]` with the new point, and leaves the
broadcast-count set unchanged. -/
theorem presign5_second_broadcast_overwrites {ID P S : Type} [DecidableEq ID]
    [AddCommMonoid P] [DecidableEq P] (r : Presign.Round5 ID P S) (j : ID)
    (g : P) (hmem : j ∈ r.messageBroadcasted) (hg : g ≠ 0) :
    (Presign.storeBroadcastMessage r ⟨j, .broadcast5 (some g)⟩).2 = none ∧
    Presign.alookup (Presign.storeBroadcastMessage r
        ⟨j, .broadcast5 (some g)⟩).1.bigGammaShare j = some g ∧
    (Presign.storeBroadcastMessage r
        ⟨j, .broadcast5 (some g)⟩).1.messageBroadcasted =
      r.messageBroadcasted := by
  simp only [Presign.storeBroadcastMessage]
  rw [if_neg hg]
  exact ⟨rfl, Presign.alookup_aset _ _ _, Presign.insertOnce_of_mem hmem⟩

/-- Witness for the amended C1. -/
theorem presign5_second_broadcast_overwrites_witness :
    (Presign.storeBroadcastMessage
        (⟨[(1, 5)], [1], 3, 0, 1, [], [], 0⟩ : Presign.Round5 Nat Int Int)
        ⟨1, .broadcast5 (some 7)⟩).2 = none ∧
    Presign.alookup (Presign.storeBroadcastMessage
        (⟨[(1, 5)], [1], 3, 0, 1, [], [], 0⟩ : Presign.Round5 Nat Int Int)
        ⟨1, .broadcast5 (some 7)⟩).1.bigGammaShare 1 = some 7 ∧
    (Presign.storeBroadcastMessage
        (⟨[(1, 5)], [1], 3, 0, 1, [], [], 0⟩ : Presign.Round5 Nat Int Int)
        ⟨1, .broadcast5 (some 7)⟩).1.messageBroadcasted = [1] :=
  presign5_second_broadcast_overwrites
    (⟨[(1, 5)], [1], 3, 0, 1, [], [], 0⟩ : Presign.Round5 Nat Int Int)
    1 7 (by decide) (by decide)

/-- C6: `StoreBroadcastMessage` returns NilFields on an identity
`BigGammaShare` and stores nothing (the state is returned unchanged); a
non-identity point of the correct content type is recorded under the sender
and the sender is marked as having broadcast. -/
theorem presign5_store_identity_rejected {ID P S : Type} [DecidableEq ID]
    [AddCommMonoid P] [DecidableEq P] (r : Presign.Round5 ID P S) (j : ID) :
    Presign.storeBroadcastMessage r ⟨j, .broadcast5 (some 0)⟩ =
      (r, some .nilFields) ∧
    ∀ g : P, g ≠ 0 →
      (Presign.storeBroadcastMessage r ⟨j, .broadcast5 (some g)⟩).2 = none ∧
      Presign.alookup (Presign.storeBroadcastMessage r
          ⟨j, .broadcast5 (some g)⟩).1.bigGammaShare j = some g ∧
      j ∈ (Presign.storeBroadcastMessage r
          ⟨j, .broadcast5 (some g)⟩).1.messageBroadcasted := by
  constructor
  · simp [Presign.storeBroadcastMessage]
  · intro g hg
    simp only [Presign.storeBroadcastMessage]
    rw [if_neg hg]
    exact ⟨rfl, Presign.alookup_aset _ _ _,
      Presign.mem_insertOnce_self _ _⟩

/-- Witness for C6. -/
theorem presign5_store_identity_rejected_witness :
    Presign.storeBroadcastMessage
        (⟨[], [], 3, 0, 1, [], [], 0⟩ : Presign.Round5 Nat Int Int)
        ⟨1, .broadcast5 (some 0)⟩ =
      (⟨[], [], 3, 0, 1, [], [], 0⟩, some .nilFields) ∧
    (Presign.storeBroadcastMessage
        (⟨[], [], 3, 0, 1, [], [], 0⟩ : Presign.Round5 Nat Int Int)
        ⟨1, .broadcast5 (some 5)⟩).2 = none :=
  ⟨(presign5_store_identity_rejected
      (⟨[], [], 3, 0, 1, [], [], 0⟩ : Presign.Round5 Nat Int Int) 1).1,
    ((presign5_store_identity_rejected
      (⟨[], [], 3, 0, 1, [], [], 0⟩ : Presign.Round5 Nat Int Int) 1).2
      5 (by decide)).1⟩

/-- C4: `Finalize` returns ErrNotEnoughMessages exactly when the number of
recorded broadcasters differs from N−1 (in that case it produces no
successor session, so the caller stays at round 5), and `CanFinalize`
returns true exactly when the count equals N−1. -/
theorem presign5_finalize_gate {ID P S : Type} [DecidableEq ID]
    [AddCommMonoid P] [SMul S P] (r : Presign.Round5 ID P S)
    (broadcastOk : Bool) :
    ((Presign.finalize r broadcastOk = .notEnoughMessages) ↔
      r.messageBroadcasted.length ≠ r.nParties - 1) ∧
    (Presign.canFinalize r = true ↔
      r.messageBroadcasted.length = r.nParties - 1) := by
  refine ⟨?_, by simp [Presign.canFinalize]⟩
  by_cases hc : r.messageBroadcasted.length = r.nParties - 1
  · rw [Presign.finalize, if_neg (not_not_intro hc)]
    cases broadcastOk <;> simp [hc]
  · rw [Presign.finalize, if_pos hc]
    simp [hc]

/-- Witness for C4. -/
theorem presign5_finalize_gate_witness :
    ((Presign.finalize
        (⟨[(1, 5)], [1], 2, 0, 1, [], [], 0⟩ : Presign.Round5 Nat Int Int)
        true = .notEnoughMessages) ↔ (1 ≠ 1)) ∧
    (Presign.canFinalize
        (⟨[(1, 5)], [1], 2, 0, 1, [], [], 0⟩ : Presign.Round5 Nat Int Int) =
      true ↔ (1 = 1)) :=
  presign5_finalize_gate
    (⟨[(1, 5)], [1], 2, 0, 1, [], [], 0⟩ : Presign.Round5 Nat Int Int) true

/-- C5: when the N−1 gate passes and the broadcast send succeeds, `Finalize`
computes `Γ` as the sum of all stored `BigGammaShare` points (the map fold
equals `List.sum`, which is invariant under any iteration order by
commutativity), computes `Δᵢ = kᵢ•Γ`, broadcasts `(Δᵢ, elog proof)` whose
statement has base `Γ` and value `Δᵢ`, and returns a round-6 session with an
empty `MessageBroadcasted` map. -/
theorem presign5_finalize_success {ID P S : Type} [DecidableEq ID]
    [AddCommMonoid P] [SMul S P] (r : Presign.Round5 ID P S)
    (h : r.messageBroadcasted.length = r.nParties - 1) :
    Presign.finalize r true = .success
      { round5 := r
        gamma := (r.bigGammaShare.map Prod.snd).sum
        bigDeltaShares :=
          [(r.selfID, r.kShare • (r.bigGammaShare.map Prod.snd).sum)]
        messageBroadcasted := [] }
      { bigDeltaShare := r.kShare • (r.bigGammaShare.map Prod.snd).sum
        proof := ⟨{ e := (Presign.alookup r.elGamalK r.selfID).getD 0
                    elGamalPublic :=
                      (Presign.alookup r.elGamal r.selfID).getD 0
                    base := (r.bigGammaShare.map Prod.snd).sum
                    y := r.kShare •
                      (r.bigGammaShare.map Prod.snd).sum }⟩ } ∧
    ∀ l : List P, l.Perm (r.bigGammaShare.map Prod.snd) →
      l.foldl (· + ·) 0 = (r.bigGammaShare.map Prod.snd).sum := by
  constructor
  · rw [Presign.finalize, if_neg (not_not_intro h)]
    rw [List.sum_eq_foldl]
    rfl
  · intro l hl
    rw [← hl.sum_eq, List.sum_eq_foldl]

/-- Witness for C5 at a concrete three-party state. -/
theorem presign5_finalize_success_witness :
    Presign.finalize
        (⟨[(1, 5), (2, 9)], [1, 2], 3, 0, 3, [(0, 11)], [(0, 13)], 0⟩ :
          Presign.Round5 Nat Int Int) true =
      .success ⟨⟨[(1, 5), (2, 9)], [1, 2], 3, 0, 3, [(0, 11)], [(0, 13)], 0⟩,
        14, [(0, 42)], []⟩ ⟨42, ⟨⟨11, 13, 14, 42⟩⟩⟩ ∧
    [(9 : Int), 5].foldl (· + ·) 0 = 14 := by
  have h := presign5_finalize_success
    (⟨[(1, 5), (2, 9)], [1, 2], 3, 0, 3, [(0, 11)], [(0, 13)], 0⟩ :
      Presign.Round5 Nat Int Int) (by decide)
  exact ⟨h.1, (h.2 [9, 5] (by decide)).trans (by decide)⟩

end Mpc
